import Mathlib

/-!
Verification of the Progressive Streaming Edit Session Engine
(ChatEditSessionService / LiveStrategy / CSChatEditsDiffDecorations).

Each definition below is a shallow embedding of the corresponding
TypeScript code: the service is modelled as a pure state-transition
function, the asynchronous streaming queue as a small-step relation,
and the strategy methods as functions that also emit an event trace
where the claims are about the order of effects.
-/

namespace AideEdit

/-! ## Coordinator request gating (ChatEditSessionService.sendEditRequest)

The service keeps two context keys (the response id and code-block
index currently marked in progress; the empty string and -1 stand for
the reset values), a map of pending requests keyed by session id, a
map of pending edits, and the per-document caches of buffer pairs and
strategies.  sendEditRequest returns the optional handle together
with the successor state. -/

/-- One targeting context of an edit request, carrying the code-block index. -/
structure EditRequestContext where
  codeBlockIndex : Int
  deriving Repr, DecidableEq

/-- The part of ICSChatAgentEditRequest that sendEditRequest inspects. -/
structure EditRequest where
  context : List EditRequestContext
  deriving Repr, DecidableEq

/-- The part of IChatResponseViewModel that sendEditRequest inspects. -/
structure ResponseVM where
  id : String
  sessionId : String
  deriving Repr, DecidableEq

/-- Mutable state of ChatEditSessionService touched by sendEditRequest:
the two bound context keys, the pending-request map (modelled by its
key set), the pending-edit map keys, and the two per-document caches
(modelled by their key sets). -/
structure ServiceState where
  editResponseIdInProgress : String
  editCodeblockInProgress : Int
  pendingRequests : List String
  pendingEdits : List String
  textModels : List String
  editStrategies : List String
  deriving Repr, DecidableEq

/-- sendEditRequest: rejects a request whose context list does not have
length exactly 1 before touching any state; otherwise sets the two
context keys, then rejects if the session already has a pending
request; otherwise records the session as pending (the synchronous
prefix of the launched streaming task) and returns a handle. -/
def sendEditRequest (vm : ResponseVM) (req : EditRequest) (s : ServiceState) :
    Option Unit × ServiceState :=
  if req.context.length ≠ 1 then
    (none, s)
  else
    let s1 := { s with
      editResponseIdInProgress := vm.id
      editCodeblockInProgress := (req.context.headD ⟨-1⟩).codeBlockIndex }
    if s1.pendingRequests.contains vm.sessionId then
      (none, s1)
    else
      (some (), { s1 with pendingRequests := vm.sessionId :: s1.pendingRequests })

/-! ## Diff visibility toggling (LiveStrategy constructor and _doToggleDiff) -/

/-- The diff-visibility part of LiveStrategy: its _diffEnabled flag and
the visible flag of its CSChatEditsDiffDecorations. -/
structure LiveToggleState where
  diffEnabled : Bool
  decorationsVisible : Bool
  deriving Repr, DecidableEq

/-- The LiveStrategy constructor reads the configured value once and
makes both flags equal to it. -/
def liveToggleInit (configShowDiff : Bool) : LiveToggleState :=
  { diffEnabled := configShowDiff, decorationsVisible := configShowDiff }

/-- _doToggleDiff copies _diffEnabled into the decoration visibility. -/
def doToggleDiff (s : LiveToggleState) : LiveToggleState :=
  { s with decorationsVisible := s.diffEnabled }

/-- The configuration-change listener: on a notification affecting
inlineChat.showDiff it negates _diffEnabled and calls _doToggleDiff.
The value actually stored in the configuration is received but never
read. -/
def onDiffConfigChange (_configuredValue : Bool) (s : LiveToggleState) : LiveToggleState :=
  doToggleDiff { s with diffEnabled := !s.diffEnabled }

/-! ## Streaming task queue (_sendEditRequestAsync)

Each partial result arriving at the progress callback enqueues one
application task onto the streaming task progressiveEditsQueue, a FIFO
queue on which one task completes before the next starts.  We model
the combined system as a small-step relation between states holding
the batches not yet arrived, the queued batches, and the live buffer;
a step is either the arrival of the next batch (enqueue) or the queue
running its front task (applying that batch to the buffer).  Arrival
speed is the nondeterministic interleaving of the two step kinds. -/

/-- State of one streaming edit request: batches still in flight from
the agent (in arrival order), batches enqueued on the task queue, and
the current live buffer. -/
structure StreamState (α β : Type) where
  arrivals : List β
  queue : List β
  buffer : α

/-- One step of the streaming system: either the next partial result
arrives and its application task is appended to the FIFO queue, or the
queue completes its front task, applying that batch to the buffer. -/
inductive StreamStep (apply : α → β → α) :
    StreamState α β → StreamState α β → Prop where
  | arrive (b : β) (rest q : List β) (buf : α) :
      StreamStep apply ⟨b :: rest, q, buf⟩ ⟨rest, q ++ [b], buf⟩
  | run (arr : List β) (b : β) (q : List β) (buf : α) :
      StreamStep apply ⟨arr, b :: q, buf⟩ ⟨arr, q, apply buf b⟩

/-- Zero or more streaming steps. -/
inductive StreamSteps (apply : α → β → α) :
    StreamState α β → StreamState α β → Prop where
  | refl (s : StreamState α β) : StreamSteps apply s s
  | tail {s t u : StreamState α β} :
      StreamSteps apply s t → StreamStep apply t u → StreamSteps apply s u

/-! ## Undo rewind (LiveStrategy.cancel and _undoModelUntil) -/

/-- The part of ITextModel that cancel relies on: whether the model is
disposed, its current alternative version id, and its undo stack, each
entry being the alternative version id restored by one undo. -/
structure TextModel where
  disposed : Bool
  altVersionId : Nat
  undoStack : List Nat
  deriving Repr, DecidableEq

/-- canUndo: the undo stack is nonempty. -/
def TextModel.canUndo (m : TextModel) : Bool :=
  !m.undoStack.isEmpty

/-- undo: restore the alternative version id on top of the undo stack. -/
def TextModel.undo (m : TextModel) : TextModel :=
  match m.undoStack with
  | [] => m
  | v :: rest => { m with altVersionId := v, undoStack := rest }

/-- _undoModelUntil: repeatedly undo while the target is below the
current alternative version and undo is available. -/
def undoModelUntil (m : TextModel) (targetAltVersion : Nat) : TextModel :=
  if targetAltVersion < m.altVersionId ∧ ¬m.undoStack.isEmpty then
    undoModelUntil m.undo targetAltVersion
  else
    m
termination_by m.undoStack.length
decreasing_by
  rename_i h
  cases hs : m.undoStack with
  | nil => rw [hs] at h; simp at h
  | cons v rest => simp [TextModel.undo, hs]

/-- The buffer-pair fields that cancel reads: the live model, the
creation-time alternative version, and the optional confirmed-snapshot
alternative version. -/
structure CodeblockTextModels where
  textModelN : TextModel
  textModelNAltVersion : Nat
  textModelNSnapshotAltVersion : Option Nat
  deriving Repr, DecidableEq

/-- The part of LiveStrategy state that cancel touches: its buffer
pair and the data of its diff-decorations collection. -/
structure CancelState where
  models : CodeblockTextModels
  decorationData : List Nat
  deriving Repr, DecidableEq

/-- The rewind target cancel computes: the confirmed-snapshot version
when one was recorded, else the creation-time version. -/
def cancelTarget (s : CancelState) : Nat :=
  s.models.textModelNSnapshotAltVersion.getD s.models.textModelNAltVersion

/-- cancel: no-op on a disposed model; otherwise undo the live model
until the rewind target and clear the decoration data. -/
def cancelStrategy (s : CancelState) : CancelState :=
  if s.models.textModelN.disposed then
    s
  else
    { s with
      models := { s.models with
        textModelN := undoModelUntil s.models.textModelN (cancelTarget s) }
      decorationData := [] }

/-! ## Edit-count and undo-stop order (LiveStrategy.makeChanges and
makeProgressiveChanges)

Both methods pre-increment _editCount and push an undo stop exactly
when the incremented count is 1.  We record the effects each call
performs on the editor and the live model as an event trace. -/

/-- A position in the editor, as revealed by makeChanges. -/
structure PositionB where
  lineNumber : Nat
  column : Nat
  deriving Repr, DecidableEq

/-- A range of an edit operation. -/
structure RangeB where
  startLineNumber : Nat
  startColumn : Nat
  endLineNumber : Nat
  endColumn : Nat
  deriving Repr, DecidableEq

/-- A single edit operation: an anchor range and replacement text. -/
structure SingleEditOperation where
  range : RangeB
  text : Option String
  deriving Repr, DecidableEq

/-- Effects performed by the strategy on the editor and live model:
pushing an undo stop, revealing a position, executing a list of edits
in one transaction, or performing one progressive async edit. -/
inductive LiveEv where
  | pushUndoStop : LiveEv
  | revealPosition (p : Option PositionB) : LiveEv
  | executeEdits (edits : List SingleEditOperation) : LiveEv
  | asyncEdit (e : SingleEditOperation) : LiveEv
  deriving Repr, DecidableEq

/-- The strategy state these two methods touch: the edit counter. -/
structure LiveEditState where
  editCount : Nat
  deriving Repr, DecidableEq

/-- makeChanges: pre-increments the edit counter; when it becomes 1,
pushes an undo stop and reveals the start of the first edit, then
executes the edits in one transaction. -/
def makeChanges (s : LiveEditState) (edits : List SingleEditOperation) :
    LiveEditState × List LiveEv :=
  let cnt := s.editCount + 1
  let pre : List LiveEv :=
    if cnt = 1 then
      [LiveEv.pushUndoStop,
        LiveEv.revealPosition (edits.head?.map fun e =>
          ⟨e.range.startLineNumber, e.range.startColumn⟩)]
    else []
  ({ editCount := cnt }, pre ++ [LiveEv.executeEdits edits])

/-- makeProgressiveChanges: pre-increments the edit counter; when it
becomes 1, pushes an undo stop; then performs one async edit per edit
in order. -/
def makeProgressiveChanges (s : LiveEditState) (edits : List SingleEditOperation) :
    LiveEditState × List LiveEv :=
  let cnt := s.editCount + 1
  let pre : List LiveEv := if cnt = 1 then [LiveEv.pushUndoStop] else []
  ({ editCount := cnt }, pre ++ edits.map LiveEv.asyncEdit)

/-- One call to the strategy: discrete or progressive. -/
inductive StrategyCall where
  | discrete (edits : List SingleEditOperation) : StrategyCall
  | progressive (edits : List SingleEditOperation) : StrategyCall
  deriving Repr, DecidableEq

/-- Run one strategy call. -/
def runCall (s : LiveEditState) (c : StrategyCall) : LiveEditState × List LiveEv :=
  match c with
  | .discrete edits => makeChanges s edits
  | .progressive edits => makeProgressiveChanges s edits

/-- Run a sequence of strategy calls, concatenating the event traces. -/
def runCalls (s : LiveEditState) (calls : List StrategyCall) :
    LiveEditState × List LiveEv :=
  match calls with
  | [] => (s, [])
  | c :: rest =>
    ((runCalls (runCall s c).1 rest).1,
      (runCall s c).2 ++ (runCalls (runCall s c).1 rest).2)

/-! ## Change summary (LiveStrategy._updateSummaryMessage)

The method receives the computed diff (possibly null), sums the
changed-line counts of its hunks, chooses the message, and, when at
least one hunk exists, folds the modified-side line ranges of the
hunks into a bounding range and records a summary under the bound
code-block index. -/

/-- The modified-side line range of one diff hunk: start line and
exclusive end line. -/
structure LineRangeB where
  startLineNumber : Nat
  endLineNumberExclusive : Nat
  deriving Repr, DecidableEq

/-- One diff hunk as consumed here: its modified-side line range and
its changed-line count. -/
structure DetailedLineRangeMapping where
  modified : LineRangeB
  changedLineCount : Nat
  deriving Repr, DecidableEq

/-- The part of IDocumentDiff consumed here: the list of hunks. -/
structure DocumentDiffB where
  changes : List DetailedLineRangeMapping
  deriving Repr, DecidableEq

/-- A {uri, range} location. -/
structure LocationB where
  uri : String
  range : RangeB
  deriving Repr, DecidableEq

/-- The published summary record {location, message}. -/
structure ChatEditSummaryB where
  location : LocationB
  summary : String
  deriving Repr, DecidableEq

/-- The numeric value of Number.MAX_VALUE used as the seed of the
bounding-range reduction. -/
def jsNumberMaxValue : Nat := 2 ^ 1024 - 2 ^ 971

/-- The reduction step of the bounding-range computation: minimum of
the start lines, maximum of the accumulated end line and the current
hunk exclusive end line, both columns pinned to 1. -/
def boundingStep (prev : RangeB) (curr : LineRangeB) : RangeB :=
  { startLineNumber := min prev.startLineNumber curr.startLineNumber
    startColumn := 1
    endLineNumber := max prev.endLineNumber curr.endLineNumberExclusive
    endColumn := 1 }

/-- The seed of the bounding-range reduction. -/
def boundingInit : RangeB :=
  { startLineNumber := jsNumberMaxValue, startColumn := 1, endLineNumber := 0, endColumn := 1 }

/-- _updateSummaryMessage: sums the changed-line counts over the hunks
of the diff (an absent diff contributes no hunks), picks the summary
message by that count, and, when at least one hunk exists, publishes
the record built from the bounding range of the hunks on the modified
side, keyed by the bound code-block index.  Returns the message and
the optionally recorded (code-block index, summary) pair. -/
def updateSummaryMessage (editCodeblockInProgress : Int) (uri : String)
    (diff : Option DocumentDiffB) : String × Option (Int × ChatEditSummaryB) :=
  let mappings := (diff.map DocumentDiffB.changes).getD []
  let linesChanged : Nat := mappings.foldl (fun acc change => acc + change.changedLineCount) 0
  let message :=
    if linesChanged = 0 then ("Nothing changed")
    else if linesChanged = 1 then ("Changed 1 line")
    else ("Changed ") ++ toString linesChanged ++ (" lines")
  let range := (mappings.map (·.modified)).foldl boundingStep boundingInit
  (message,
    if mappings.length > 0 then
      some (editCodeblockInProgress, { location := { uri := uri, range := range }, summary := message })
    else none)

/-- The total changed-line count of an optional diff, stated as the
sum the claims speak about. -/
def totalChangedLines (diff : Option DocumentDiffB) : Nat :=
  (((diff.map DocumentDiffB.changes).getD []).map (·.changedLineCount)).sum

/-! ## Per-batch application (ChatEditSessionService._makeChanges and
getTextModels)

_makeChanges walks the edit operations of one batch in order.  For
each operation it resolves the buffer pair via getTextModels, which
throws when the host has no live model for the document (aborting the
loop); it then looks for an open editor and falls back to opening one,
and when neither yields an editor it logs and returns, abandoning the
rest of the batch.  Otherwise it obtains or creates the strategy for
the document and applies the edit. -/

/-- The host services _makeChanges consults: the documents for which
modelService.getModel returns a live model, those for which
listCodeEditors finds an editor, and those for which openCodeEditor
succeeds. -/
structure HostServices where
  liveModels : List String
  openEditors : List String
  openableEditors : List String
  deriving Repr, DecidableEq

/-- The service state the batch loop mutates: the buffer-pair cache
keys, the strategy cache keys, and the edits applied so far in order. -/
structure BatchApplyState where
  textModels : List String
  editStrategies : List String
  applied : List (String × SingleEditOperation)
  deriving Repr, DecidableEq

/-- How the batch loop ends: all edits applied, an early return on a
document with no obtainable editor, or a thrown error on a document
with no live model. -/
inductive BatchOutcome where
  | completed : BatchOutcome
  | editorUnavailable (uri : String) : BatchOutcome
  | documentNotFound (uri : String) : BatchOutcome
  deriving Repr, DecidableEq

/-- The per-batch loop of _makeChanges.  getTextModels: cached pair or
a pair created from the live model, else a thrown error ending the
loop.  Editor lookup: an already-open editor or an openable one, else
an early return ending the loop.  On success the strategy is obtained
or created and the edit is applied, then the loop continues. -/
def makeChangesLoop (host : HostServices) (st : BatchApplyState)
    (edits : List (String × SingleEditOperation)) : BatchApplyState × BatchOutcome :=
  match edits with
  | [] => (st, .completed)
  | (uri, edit) :: rest =>
    if uri ∈ st.textModels ∨ uri ∈ host.liveModels then
      let st1 := if uri ∈ st.textModels then st
        else { st with textModels := st.textModels ++ [uri] }
      if uri ∈ host.openEditors ∨ uri ∈ host.openableEditors then
        let st2 := if uri ∈ st1.editStrategies then st1
          else { st1 with editStrategies := st1.editStrategies ++ [uri] }
        makeChangesLoop host { st2 with applied := st2.applied ++ [(uri, edit)] } rest
      else (st1, .editorUnavailable uri)
    else (st, .documentNotFound uri)

/-! ## Invariant and helper lemmas -/

/-- Invariant: folding the application function over the queued batches
followed by the not-yet-arrived batches, starting at the current
buffer, is preserved by every step. -/
theorem streamStep_invariant {α β : Type} {apply : α → β → α}
    {s t : StreamState α β} (h : StreamStep apply s t) :
    (s.queue ++ s.arrivals).foldl apply s.buffer
      = (t.queue ++ t.arrivals).foldl apply t.buffer := by
  cases h with
  | arrive b rest q buf => simp
  | run arr b q buf => simp

theorem streamSteps_invariant {α β : Type} {apply : α → β → α}
    {s t : StreamState α β} (h : StreamSteps apply s t) :
    (s.queue ++ s.arrivals).foldl apply s.buffer
      = (t.queue ++ t.arrivals).foldl apply t.buffer := by
  induction h with
  | refl => rfl
  | tail _ hstep ih => exact ih.trans (streamStep_invariant hstep)

/-- After _undoModelUntil, either the target has been reached (the
alternative version is at or below it) or the undo stack is exhausted. -/
theorem undoModelUntil_reaches (m : TextModel) (target : Nat) :
    (undoModelUntil m target).altVersionId ≤ target
      ∨ (undoModelUntil m target).undoStack = [] := by
  induction m, target using undoModelUntil.induct with
  | case1 m target h ih => rw [undoModelUntil, if_pos h]; exact ih
  | case2 m target h =>
    rw [undoModelUntil, if_neg h]
    rcases not_and_or.mp h with h1 | h2
    · exact Or.inl (Nat.le_of_not_lt h1)
    · exact Or.inr (List.isEmpty_iff.mp (not_not.mp h2))

/-- Folding addition of the changed-line counts equals the sum of the
mapped counts. -/
theorem foldl_add_changedLineCount (l : List DetailedLineRangeMapping) (a : Nat) :
    l.foldl (fun acc change => acc + change.changedLineCount) a
      = a + (l.map (·.changedLineCount)).sum := by
  induction l generalizing a with
  | nil => simp
  | cons c t ih => simp [ih, Nat.add_assoc]

/-- The bounding fold never increases the accumulated start line. -/
theorem boundingFold_start_le_init (l : List LineRangeB) (init : RangeB) :
    (l.foldl boundingStep init).startLineNumber ≤ init.startLineNumber := by
  induction l generalizing init with
  | nil => exact Nat.le_refl _
  | cons c t ih =>
    exact (ih (boundingStep init c)).trans (Nat.min_le_left _ _)

/-- The bounding fold result starts at or before every member. -/
theorem boundingFold_start_le (l : List LineRangeB) (init : RangeB) :
    ∀ r ∈ l, (l.foldl boundingStep init).startLineNumber ≤ r.startLineNumber := by
  induction l generalizing init with
  | nil => intro r hr; cases hr
  | cons c t ih =>
    intro r hr
    rcases List.mem_cons.mp hr with rfl | hm
    · exact (boundingFold_start_le_init t (boundingStep init _)).trans (Nat.min_le_right _ _)
    · exact ih (boundingStep init c) r hm

/-- The bounding fold start line is the seed start line or the start
line of some member. -/
theorem boundingFold_start_choice (l : List LineRangeB) (init : RangeB) :
    (l.foldl boundingStep init).startLineNumber = init.startLineNumber
      ∨ ∃ r ∈ l, (l.foldl boundingStep init).startLineNumber = r.startLineNumber := by
  induction l generalizing init with
  | nil => exact Or.inl rfl
  | cons c t ih =>
    rcases ih (boundingStep init c) with h | ⟨r, hr, he⟩
    · rcases min_choice init.startLineNumber c.startLineNumber with hm | hm
      · exact Or.inl (by rw [List.foldl_cons, h]; exact hm)
      · exact Or.inr ⟨c, List.mem_cons_self _ _, by rw [List.foldl_cons, h]; exact hm⟩
    · exact Or.inr ⟨r, List.mem_cons_of_mem _ hr, he⟩

/-- The bounding fold never decreases the accumulated end line. -/
theorem boundingFold_init_le_end (l : List LineRangeB) (init : RangeB) :
    init.endLineNumber ≤ (l.foldl boundingStep init).endLineNumber := by
  induction l generalizing init with
  | nil => exact Nat.le_refl _
  | cons c t ih =>
    exact (Nat.le_max_left _ _).trans (ih (boundingStep init c))

/-- The bounding fold result ends at or after the exclusive end line
of every member. -/
theorem boundingFold_end_ge (l : List LineRangeB) (init : RangeB) :
    ∀ r ∈ l, r.endLineNumberExclusive ≤ (l.foldl boundingStep init).endLineNumber := by
  induction l generalizing init with
  | nil => intro r hr; cases hr
  | cons c t ih =>
    intro r hr
    rcases List.mem_cons.mp hr with rfl | hm
    · exact (Nat.le_max_right _ _).trans (boundingFold_init_le_end t (boundingStep init _))
    · exact ih (boundingStep init c) r hm

/-- The bounding fold end line is the seed end line or the exclusive
end line of some member. -/
theorem boundingFold_end_choice (l : List LineRangeB) (init : RangeB) :
    (l.foldl boundingStep init).endLineNumber = init.endLineNumber
      ∨ ∃ r ∈ l, (l.foldl boundingStep init).endLineNumber = r.endLineNumberExclusive := by
  induction l generalizing init with
  | nil => exact Or.inl rfl
  | cons c t ih =>
    rcases ih (boundingStep init c) with h | ⟨r, hr, he⟩
    · rcases max_choice init.endLineNumber c.endLineNumberExclusive with hm | hm
      · exact Or.inl (by rw [List.foldl_cons, h]; exact hm)
      · exact Or.inr ⟨c, List.mem_cons_self _ _, by rw [List.foldl_cons, h]; exact hm⟩
    · exact Or.inr ⟨r, List.mem_cons_of_mem _ hr, he⟩

/-- The bounding fold keeps both columns of a seed with columns 1 at 1. -/
theorem boundingFold_columns (l : List LineRangeB) (init : RangeB)
    (h1 : init.startColumn = 1) (h2 : init.endColumn = 1) :
    (l.foldl boundingStep init).startColumn = 1
      ∧ (l.foldl boundingStep init).endColumn = 1 := by
  induction l generalizing init with
  | nil => exact ⟨h1, h2⟩
  | cons c t ih => exact ih (boundingStep init c) rfl rfl

/-- Every small number is at most Number.MAX_VALUE. -/
theorem le_jsNumberMaxValue {n : Nat} (h : n ≤ 100) : n ≤ jsNumberMaxValue := by
  have hsmall : (100 : Nat) ≤ 2 ^ 971 :=
    le_trans (by norm_num : (100 : Nat) ≤ 2 ^ 7)
      (Nat.pow_le_pow_right (by norm_num) (by norm_num))
  have hdouble : (2 : Nat) ^ 971 + 2 ^ 971 = 2 ^ 972 := by
    rw [← Nat.two_mul, ← pow_succ']
  have hup : (2 : Nat) ^ 972 ≤ 2 ^ 1024 := Nat.pow_le_pow_right (by norm_num) (by norm_num)
  have : (2 : Nat) ^ 971 + 100 ≤ 2 ^ 1024 := by omega
  unfold jsNumberMaxValue
  omega

/-- The summed changed-line count of the hunks, rewritten from the
accumulating fold inside _updateSummaryMessage. -/
theorem linesChanged_eq_total (diff : Option DocumentDiffB) :
    ((diff.map DocumentDiffB.changes).getD []).foldl
        (fun acc change => acc + change.changedLineCount) 0
      = totalChangedLines diff := by
  rw [foldl_add_changedLineCount]
  simp [totalChangedLines]

/-- One successful iteration of the batch loop: when the document has
a live model (or a cached pair) and an editor, the loop continues on
the rest with the caches possibly extended and the edit appended. -/
theorem makeChangesLoop_cons_of_ok (host : HostServices) (st : BatchApplyState)
    (u : String) (e : SingleEditOperation) (edits2 : List (String × SingleEditOperation))
    (hdoc : u ∈ st.textModels ∨ u ∈ host.liveModels)
    (hed : u ∈ host.openEditors ∨ u ∈ host.openableEditors) :
    makeChangesLoop host st ((u, e) :: edits2)
      = makeChangesLoop host
          ⟨if u ∈ st.textModels then st.textModels else st.textModels ++ [u],
            if u ∈ st.editStrategies then st.editStrategies else st.editStrategies ++ [u],
            st.applied ++ [(u, e)]⟩ edits2 := by
  rcases Decidable.em (u ∈ st.textModels) with h1 | h1 <;>
    rcases Decidable.em (u ∈ st.editStrategies) with h2 | h2
  · simp [makeChangesLoop, h1, h2, hed]
  · simp [makeChangesLoop, h1, h2, hed]
  · have hlm : u ∈ host.liveModels := hdoc.resolve_left h1
    simp [makeChangesLoop, h1, h2, hlm, hed]
  · have hlm : u ∈ host.liveModels := hdoc.resolve_left h1
    simp [makeChangesLoop, h1, h2, hlm, hed]

/-! ## Claim theorems -/

/-- C6: a request whose targeting-context list does not have length
exactly 1 makes sendEditRequest return nothing and leave the whole
service state unchanged: no in-progress markers set, no session entry
created, no strategy or buffer pair created. -/
theorem c6_invalid_shape (vm : ResponseVM) (req : EditRequest) (s : ServiceState)
    (h : req.context.length ≠ 1) :
    sendEditRequest vm req s = (none, s) := by
  simp [sendEditRequest, h]

theorem c6_invalid_shape_witness :
    sendEditRequest ⟨"r1", "sess1"⟩ ⟨[]⟩
        ⟨"", -1, [], [], [], []⟩ = (none, ⟨"", -1, [], [], [], []⟩) :=
  c6_invalid_shape ⟨"r1", "sess1"⟩ ⟨[]⟩ ⟨"", -1, [], [], [], []⟩ (by decide)

/-- C2: a well-formed request for a session that already has a pending
request returns no handle, is not queued (the pending-request map is
unchanged), and leaves the pending edits and the per-document caches
of the in-flight request untouched. -/
theorem c2_single_inflight (vm : ResponseVM) (req : EditRequest) (s : ServiceState)
    (hlen : req.context.length = 1)
    (hpend : s.pendingRequests.contains vm.sessionId = true) :
    (sendEditRequest vm req s).1 = none
      ∧ (sendEditRequest vm req s).2.pendingRequests = s.pendingRequests
      ∧ (sendEditRequest vm req s).2.pendingEdits = s.pendingEdits
      ∧ (sendEditRequest vm req s).2.textModels = s.textModels
      ∧ (sendEditRequest vm req s).2.editStrategies = s.editStrategies := by
  have hmem : vm.sessionId ∈ s.pendingRequests := by simpa using hpend
  simp [sendEditRequest, hlen, hmem]

theorem c2_single_inflight_witness :
    (sendEditRequest ⟨"r2", "sess1"⟩ ⟨[⟨3⟩]⟩
        ⟨"r1", 0, ["sess1"], ["sess1"], ["doc1"], ["doc1"]⟩).1 = none
      ∧ (sendEditRequest ⟨"r2", "sess1"⟩ ⟨[⟨3⟩]⟩
        ⟨"r1", 0, ["sess1"], ["sess1"], ["doc1"], ["doc1"]⟩).2.pendingRequests = ["sess1"]
      ∧ (sendEditRequest ⟨"r2", "sess1"⟩ ⟨[⟨3⟩]⟩
        ⟨"r1", 0, ["sess1"], ["sess1"], ["doc1"], ["doc1"]⟩).2.pendingEdits = ["sess1"]
      ∧ (sendEditRequest ⟨"r2", "sess1"⟩ ⟨[⟨3⟩]⟩
        ⟨"r1", 0, ["sess1"], ["sess1"], ["doc1"], ["doc1"]⟩).2.textModels = ["doc1"]
      ∧ (sendEditRequest ⟨"r2", "sess1"⟩ ⟨[⟨3⟩]⟩
        ⟨"r1", 0, ["sess1"], ["sess1"], ["doc1"], ["doc1"]⟩).2.editStrategies = ["doc1"] :=
  c2_single_inflight ⟨"r2", "sess1"⟩ ⟨[⟨3⟩]⟩
    ⟨"r1", 0, ["sess1"], ["sess1"], ["doc1"], ["doc1"]⟩ (by decide) (by decide)

/-- C9: on the duplicate-rejection path the two global in-progress
markers are nevertheless overwritten with the values of the new,
rejected request before the duplicate check fires. -/
theorem c9_markers_overwritten (vm : ResponseVM) (c : EditRequestContext) (s : ServiceState)
    (hpend : s.pendingRequests.contains vm.sessionId = true) :
    (sendEditRequest vm ⟨[c]⟩ s).1 = none
      ∧ (sendEditRequest vm ⟨[c]⟩ s).2.editResponseIdInProgress = vm.id
      ∧ (sendEditRequest vm ⟨[c]⟩ s).2.editCodeblockInProgress = c.codeBlockIndex := by
  have hmem : vm.sessionId ∈ s.pendingRequests := by simpa using hpend
  simp [sendEditRequest, hmem]

theorem c9_markers_overwritten_witness :
    (sendEditRequest ⟨"r2", "sess1"⟩ ⟨[⟨7⟩]⟩ ⟨"r1", 0, ["sess1"], [], [], []⟩).1 = none
      ∧ (sendEditRequest ⟨"r2", "sess1"⟩ ⟨[⟨7⟩]⟩
          ⟨"r1", 0, ["sess1"], [], [], []⟩).2.editResponseIdInProgress = "r2"
      ∧ (sendEditRequest ⟨"r2", "sess1"⟩ ⟨[⟨7⟩]⟩
          ⟨"r1", 0, ["sess1"], [], [], []⟩).2.editCodeblockInProgress = 7 :=
  c9_markers_overwritten ⟨"r2", "sess1"⟩ ⟨7⟩ ⟨"r1", 0, ["sess1"], [], [], []⟩ (by decide)

/-- C10: the configuration-change listener negates the current flag
instead of reading the newly configured value: one notification makes
the visibility the negation of its previous value, two notifications
restore the original value, independently of the configured values. -/
theorem c10_toggle_negation (c1 c2 : Bool) (s : LiveToggleState)
    (hinv : s.decorationsVisible = s.diffEnabled) :
    (onDiffConfigChange c1 s).decorationsVisible = !s.decorationsVisible
      ∧ (onDiffConfigChange c2 (onDiffConfigChange c1 s)).decorationsVisible
          = s.decorationsVisible := by
  simp [onDiffConfigChange, doToggleDiff, hinv]

theorem c10_toggle_negation_witness :
    (onDiffConfigChange false (liveToggleInit true)).decorationsVisible = !true
      ∧ (onDiffConfigChange true
          (onDiffConfigChange false (liveToggleInit true))).decorationsVisible = true :=
  c10_toggle_negation false true (liveToggleInit true) rfl

/-- C1: for a document receiving N ordered partial batches, any
complete execution of the streaming system (batch arrivals interleaved
arbitrarily with the FIFO queue completing its application tasks one
at a time) ends with the live buffer equal to the result of applying
all N batches sequentially in arrival order. -/
theorem c1_queue_order {α β : Type} (apply : α → β → α)
    (batches : List β) (buf0 final : α)
    (h : StreamSteps apply ⟨batches, [], buf0⟩ ⟨[], [], final⟩) :
    final = batches.foldl apply buf0 := by
  have hinv := streamSteps_invariant h
  simpa using hinv.symm

theorem c1_queue_order_witness :
    ([1, 2, 3] : List Nat)
      = ([[1], [2], [3]] : List (List Nat)).foldl (fun b x => b ++ x) [] :=
  c1_queue_order (fun b x => b ++ x) [[1], [2], [3]] [] [1, 2, 3]
    (.tail (.tail (.tail (.tail (.tail (.tail (.refl _)
      (.arrive [1] [[2], [3]] [] []))
      (.arrive [2] [[3]] [[1]] []))
      (.run [[3]] [1] [[2]] []))
      (.arrive [3] [] [[2]] [1]))
      (.run [] [2] [[3]] [1]))
      (.run [] [3] [] [1, 2]))

/-- C4: on a strategy whose live buffer is not disposed, cancel rewinds
toward the confirmed-checkpoint version when recorded, else toward the
creation-time version; afterwards the alternative version is at or
below the target or the undo stack is exhausted, and the decorations
are cleared.  On a disposed buffer, cancel is a no-op. -/
theorem c4_cancel_rewind (s : CancelState) :
    (s.models.textModelN.disposed = true → cancelStrategy s = s)
      ∧ (s.models.textModelN.disposed = false →
          ((cancelStrategy s).models.textModelN.altVersionId ≤ cancelTarget s
            ∨ (cancelStrategy s).models.textModelN.undoStack = [])
          ∧ (cancelStrategy s).decorationData = []) := by
  constructor
  · intro h
    simp [cancelStrategy, h]
  · intro h
    simp only [cancelStrategy, h, Bool.false_eq_true, if_false]
    exact ⟨undoModelUntil_reaches _ _, trivial⟩

theorem c4_cancel_rewind_witness :
    (cancelStrategy ⟨⟨⟨true, 10, [8, 6, 3]⟩, 9, some 5⟩, [1, 2]⟩
        = ⟨⟨⟨true, 10, [8, 6, 3]⟩, 9, some 5⟩, [1, 2]⟩)
      ∧ (((cancelStrategy ⟨⟨⟨false, 10, [8, 6, 3]⟩, 9, some 5⟩, [1, 2]⟩).models.textModelN.altVersionId
            ≤ cancelTarget ⟨⟨⟨false, 10, [8, 6, 3]⟩, 9, some 5⟩, [1, 2]⟩
          ∨ (cancelStrategy ⟨⟨⟨false, 10, [8, 6, 3]⟩, 9, some 5⟩, [1, 2]⟩).models.textModelN.undoStack = [])
        ∧ (cancelStrategy ⟨⟨⟨false, 10, [8, 6, 3]⟩, 9, some 5⟩, [1, 2]⟩).decorationData = []) :=
  ⟨(c4_cancel_rewind ⟨⟨⟨true, 10, [8, 6, 3]⟩, 9, some 5⟩, [1, 2]⟩).1 rfl,
    (c4_cancel_rewind ⟨⟨⟨false, 10, [8, 6, 3]⟩, 9, some 5⟩, [1, 2]⟩).2 rfl⟩

/-- A call on a strategy whose edit counter is already positive never
pushes an undo stop. -/
theorem runCall_no_push (s : LiveEditState) (c : StrategyCall) (h : s.editCount ≠ 0) :
    ((runCall s c).2).count LiveEv.pushUndoStop = 0 := by
  cases c with
  | discrete edits =>
    simp [runCall, makeChanges, h, List.count_eq_zero]
  | progressive edits =>
    simp [runCall, makeProgressiveChanges, h, List.count_eq_zero]

/-- Running calls from a strategy whose edit counter is already
positive never pushes an undo stop. -/
theorem runCalls_no_push (calls : List StrategyCall) (s : LiveEditState)
    (h : s.editCount ≠ 0) :
    ((runCalls s calls).2).count LiveEv.pushUndoStop = 0 := by
  induction calls generalizing s with
  | nil => simp [runCalls]
  | cons c rest ih =>
    have h1 : (runCall s c).1.editCount ≠ 0 := by
      cases c <;> simp [runCall, makeChanges, makeProgressiveChanges]
    simp [runCalls, List.count_append, runCall_no_push s c h, ih _ h1]

/-- The first call on a fresh strategy emits the undo stop as its very
first effect, and exactly once. -/
theorem runCall_first_push (c : StrategyCall) :
    ((runCall ⟨0⟩ c).2).head? = some LiveEv.pushUndoStop
      ∧ ((runCall ⟨0⟩ c).2).count LiveEv.pushUndoStop = 1 := by
  cases c with
  | discrete edits => simp [runCall, makeChanges, List.count_eq_zero]
  | progressive edits =>
    refine ⟨by simp [runCall, makeProgressiveChanges], ?_⟩
    simp [runCall, makeProgressiveChanges, List.count_eq_zero]

/-- C5: over any nonempty interleaving of makeChanges and
makeProgressiveChanges calls on one fresh strategy instance, the undo
stop is pushed exactly once, as the very first effect of the whole
trace (hence immediately before the first edit is applied), and never
again by later calls. -/
theorem c5_undo_stop_once (calls : List StrategyCall) (h : calls ≠ []) :
    ((runCalls ⟨0⟩ calls).2).count LiveEv.pushUndoStop = 1
      ∧ ((runCalls ⟨0⟩ calls).2).head? = some LiveEv.pushUndoStop := by
  cases calls with
  | nil => exact absurd rfl h
  | cons c rest =>
    have hfirst := runCall_first_push c
    have hcnt : (runCall ⟨0⟩ c).1.editCount ≠ 0 := by
      cases c <;> simp [runCall, makeChanges, makeProgressiveChanges]
    constructor
    · simp [runCalls, List.count_append, hfirst.2, runCalls_no_push rest _ hcnt]
    · have hne : (runCall ⟨0⟩ c).2 ≠ [] := by
        intro hnil
        rw [hnil] at hfirst
        exact Option.noConfusion hfirst.1
      simp [runCalls, List.head?_append, hfirst.1]

theorem c5_undo_stop_once_witness :
    ((runCalls ⟨0⟩ [.progressive [⟨⟨1, 1, 1, 1⟩, some ("a")⟩],
        .discrete [⟨⟨2, 1, 2, 1⟩, some ("b")⟩]]).2).count LiveEv.pushUndoStop = 1
      ∧ ((runCalls ⟨0⟩ [.progressive [⟨⟨1, 1, 1, 1⟩, some ("a")⟩],
        .discrete [⟨⟨2, 1, 2, 1⟩, some ("b")⟩]]).2).head? = some LiveEv.pushUndoStop :=
  c5_undo_stop_once
    [.progressive [⟨⟨1, 1, 1, 1⟩, some ("a")⟩], .discrete [⟨⟨2, 1, 2, 1⟩, some ("b")⟩]]
    (by decide)

/-- C7: the change-summary message is a function of the total
changed-line count summed over all hunks: zero yields the unchanged
message, one the singular message, two or more the pluralized message
with the literal count substituted. -/
theorem c7_summary_message (i : Int) (uri : String) (diff : Option DocumentDiffB) :
    (totalChangedLines diff = 0 →
        (updateSummaryMessage i uri diff).1 = "Nothing changed")
      ∧ (totalChangedLines diff = 1 →
        (updateSummaryMessage i uri diff).1 = "Changed 1 line")
      ∧ (2 ≤ totalChangedLines diff →
        (updateSummaryMessage i uri diff).1
          = ("Changed ") ++ toString (totalChangedLines diff) ++ (" lines")) := by
  refine ⟨?_, ?_, ?_⟩ <;> intro h
  · simp only [updateSummaryMessage, linesChanged_eq_total]
    simp [h]
  · simp only [updateSummaryMessage, linesChanged_eq_total]
    simp [h]
  · have h0 : totalChangedLines diff ≠ 0 := by omega
    have h1 : totalChangedLines diff ≠ 1 := by omega
    simp only [updateSummaryMessage, linesChanged_eq_total]
    simp [h0, h1]

theorem c7_summary_message_witness :
    ((updateSummaryMessage 0 ("u") none).1 = "Nothing changed")
      ∧ ((updateSummaryMessage 0 ("u") (some ⟨[⟨⟨1, 2⟩, 1⟩]⟩)).1 = "Changed 1 line")
      ∧ ((updateSummaryMessage 0 ("u") (some ⟨[⟨⟨1, 3⟩, 2⟩]⟩)).1
          = ("Changed ") ++ toString (totalChangedLines (some ⟨[⟨⟨1, 3⟩, 2⟩]⟩)) ++ (" lines")) :=
  ⟨(c7_summary_message 0 ("u") none).1 (by decide),
    (c7_summary_message 0 ("u") (some ⟨[⟨⟨1, 2⟩, 1⟩]⟩)).2.1 (by decide),
    (c7_summary_message 0 ("u") (some ⟨[⟨⟨1, 3⟩, 2⟩]⟩)).2.2 (by decide)⟩

/-- C8: a summary record is published if and only if the diff has at
least one hunk, and the published range bounds the hunks on the
modified side: its start line is the minimum hunk start line, its end
line is the maximum hunk exclusive end line, both columns are pinned
to 1, and the record is keyed by the bound code-block index. -/
theorem c8_summary_record (i : Int) (uri : String) (diff : Option DocumentDiffB)
    (hbound : ∀ c ∈ (diff.map DocumentDiffB.changes).getD [],
        c.modified.startLineNumber ≤ jsNumberMaxValue) :
    ((updateSummaryMessage i uri diff).2 = none
        ↔ (diff.map DocumentDiffB.changes).getD [] = [])
      ∧ ((diff.map DocumentDiffB.changes).getD [] ≠ [] →
        ∃ rec, (updateSummaryMessage i uri diff).2 = some (i, rec)
          ∧ rec.location.uri = uri
          ∧ rec.location.range.startColumn = 1
          ∧ rec.location.range.endColumn = 1
          ∧ (∀ c ∈ (diff.map DocumentDiffB.changes).getD [],
              rec.location.range.startLineNumber ≤ c.modified.startLineNumber
                ∧ c.modified.endLineNumberExclusive ≤ rec.location.range.endLineNumber)
          ∧ (∃ c ∈ (diff.map DocumentDiffB.changes).getD [],
              rec.location.range.startLineNumber = c.modified.startLineNumber)
          ∧ (∃ c ∈ (diff.map DocumentDiffB.changes).getD [],
              rec.location.range.endLineNumber = c.modified.endLineNumberExclusive)) := by
  constructor
  · constructor
    · intro hnone
      by_contra hm
      have hlen2 : 0 < (diff.getD ⟨[]⟩).changes.length := by
        have := List.length_pos.mpr hm
        simpa using this
      simp [updateSummaryMessage, hlen2] at hnone
    · intro hm
      have hm2 : (diff.getD ⟨[]⟩).changes = [] := by simpa using hm
      simp [updateSummaryMessage, hm2]
  · intro hm
    have hlen2 : 0 < (diff.getD ⟨[]⟩).changes.length := by
      have := List.length_pos.mpr hm
      simpa using this
    refine ⟨⟨⟨uri,
        ((((diff.map DocumentDiffB.changes).getD []).map (·.modified)).foldl
          boundingStep boundingInit)⟩,
        (updateSummaryMessage i uri diff).1⟩, ?_, rfl, ?_, ?_, ?_, ?_, ?_⟩
    · simp [updateSummaryMessage, hlen2]
    · exact (boundingFold_columns _ boundingInit rfl rfl).1
    · exact (boundingFold_columns _ boundingInit rfl rfl).2
    · intro c hc
      exact ⟨boundingFold_start_le _ boundingInit _ (List.mem_map_of_mem _ hc),
        boundingFold_end_ge _ boundingInit _ (List.mem_map_of_mem _ hc)⟩
    · rcases boundingFold_start_choice
          ((((diff.map DocumentDiffB.changes).getD []).map (·.modified))) boundingInit with
        hs | ⟨r, hr, he⟩
      · rcases List.exists_mem_of_ne_nil _ hm with ⟨c0, hc0⟩
        refine ⟨c0, hc0, Nat.le_antisymm ?_ ?_⟩
        · exact boundingFold_start_le _ boundingInit _ (List.mem_map_of_mem _ hc0)
        · rw [hs]; exact hbound c0 hc0
      · rcases List.mem_map.mp hr with ⟨c0, hc0, rfl⟩
        exact ⟨c0, hc0, he⟩
    · rcases boundingFold_end_choice
          ((((diff.map DocumentDiffB.changes).getD []).map (·.modified))) boundingInit with
        hs | ⟨r, hr, he⟩
      · rcases List.exists_mem_of_ne_nil _ hm with ⟨c0, hc0⟩
        refine ⟨c0, hc0, Nat.le_antisymm ?_ ?_⟩
        · rw [hs]; exact Nat.zero_le _
        · exact boundingFold_end_ge _ boundingInit _ (List.mem_map_of_mem _ hc0)
      · rcases List.mem_map.mp hr with ⟨c0, hc0, rfl⟩
        exact ⟨c0, hc0, he⟩

theorem c8_summary_record_witness :
    (((updateSummaryMessage 2 ("u") (some ⟨[⟨⟨3, 6⟩, 2⟩, ⟨⟨1, 2⟩, 1⟩]⟩)).2 = none
        ↔ ((some ⟨[⟨⟨3, 6⟩, 2⟩, ⟨⟨1, 2⟩, 1⟩]⟩ : Option DocumentDiffB).map
            DocumentDiffB.changes).getD [] = [])
      ∧ (((some ⟨[⟨⟨3, 6⟩, 2⟩, ⟨⟨1, 2⟩, 1⟩]⟩ : Option DocumentDiffB).map
            DocumentDiffB.changes).getD [] ≠ [] →
        ∃ rec, (updateSummaryMessage 2 ("u") (some ⟨[⟨⟨3, 6⟩, 2⟩, ⟨⟨1, 2⟩, 1⟩]⟩)).2
              = some (2, rec)
          ∧ rec.location.uri = "u"
          ∧ rec.location.range.startColumn = 1
          ∧ rec.location.range.endColumn = 1
          ∧ (∀ c ∈ ((some ⟨[⟨⟨3, 6⟩, 2⟩, ⟨⟨1, 2⟩, 1⟩]⟩ : Option DocumentDiffB).map
                DocumentDiffB.changes).getD [],
              rec.location.range.startLineNumber ≤ c.modified.startLineNumber
                ∧ c.modified.endLineNumberExclusive ≤ rec.location.range.endLineNumber)
          ∧ (∃ c ∈ ((some ⟨[⟨⟨3, 6⟩, 2⟩, ⟨⟨1, 2⟩, 1⟩]⟩ : Option DocumentDiffB).map
                DocumentDiffB.changes).getD [],
              rec.location.range.startLineNumber = c.modified.startLineNumber)
          ∧ (∃ c ∈ ((some ⟨[⟨⟨3, 6⟩, 2⟩, ⟨⟨1, 2⟩, 1⟩]⟩ : Option DocumentDiffB).map
                DocumentDiffB.changes).getD [],
              rec.location.range.endLineNumber = c.modified.endLineNumberExclusive))) :=
  c8_summary_record 2 ("u") (some ⟨[⟨⟨3, 6⟩, 2⟩, ⟨⟨1, 2⟩, 1⟩]⟩) (by
    intro c hc
    simp at hc
    rcases hc with rfl | rfl <;> exact le_jsNumberMaxValue (by norm_num))

/-- C3 counterexample: a batch of two edits where the first targets a
document with a live model but no obtainable editor.  The loop ends
with the early editor-unavailable return and the sibling edit on a
fully available document is never applied, contradicting the claim
that remaining sibling edits of the same batch are still applied. -/
theorem c3_counterexample :
    (makeChangesLoop ⟨["a", "b"], ["b"], []⟩ ⟨[], [], []⟩
        [(("a"), ⟨⟨1, 1, 1, 1⟩, some ("x")⟩), (("b"), ⟨⟨1, 1, 1, 1⟩, some ("y")⟩)]).2
      = BatchOutcome.editorUnavailable ("a")
    ∧ ((("b"), (⟨⟨1, 1, 1, 1⟩, some ("y")⟩ : SingleEditOperation)) ∉
        (makeChangesLoop ⟨["a", "b"], ["b"], []⟩ ⟨[], [], []⟩
          [(("a"), ⟨⟨1, 1, 1, 1⟩, some ("x")⟩), (("b"), ⟨⟨1, 1, 1, 1⟩, some ("y")⟩)]).1.applied) := by
  decide

/-- C3 amended: a per-edit failure ends the whole batch early, not just
that edit.  Walking a batch whose prefix of edits all resolve a live
model and an editor, upon the first edit whose document either has no
live model (the thrown document-not-found case) or has no obtainable
editor (the logged early-return case), exactly the prefix has been
applied and every remaining sibling edit of the batch is abandoned. -/
theorem c3_amended_abort (host : HostServices) (st : BatchApplyState)
    (pre : List (String × SingleEditOperation)) (uf : String) (ef : SingleEditOperation)
    (rest : List (String × SingleEditOperation))
    (hpre : ∀ p ∈ pre, (p.1 ∈ st.textModels ∨ p.1 ∈ host.liveModels)
        ∧ (p.1 ∈ host.openEditors ∨ p.1 ∈ host.openableEditors))
    (hfail : (uf ∉ st.textModels ∧ uf ∉ host.liveModels)
        ∨ (uf ∈ host.liveModels ∧ uf ∉ host.openEditors ∧ uf ∉ host.openableEditors)) :
    (makeChangesLoop host st (pre ++ (uf, ef) :: rest)).1.applied = st.applied ++ pre
      ∧ ((makeChangesLoop host st (pre ++ (uf, ef) :: rest)).2 = BatchOutcome.documentNotFound uf
        ∨ (makeChangesLoop host st (pre ++ (uf, ef) :: rest)).2 = BatchOutcome.editorUnavailable uf) := by
  induction pre generalizing st with
  | nil =>
    rcases hfail with ⟨h1, h2⟩ | ⟨h1, h2, h3⟩
    · have hdoc : ¬(uf ∈ st.textModels ∨ uf ∈ host.liveModels) := by
        intro hc; rcases hc with hc | hc
        · exact h1 hc
        · exact h2 hc
      simp [makeChangesLoop, hdoc]
    · have hdoc : uf ∈ st.textModels ∨ uf ∈ host.liveModels := Or.inr h1
      have hed : ¬(uf ∈ host.openEditors ∨ uf ∈ host.openableEditors) := by
        intro hc; rcases hc with hc | hc
        · exact h2 hc
        · exact h3 hc
      by_cases hcache : uf ∈ st.textModels <;>
        simp [makeChangesLoop, hdoc, hed, hcache, h1]
  | cons p t ih =>
    obtain ⟨u, e⟩ := p
    have hp := hpre ⟨u, e⟩ (List.mem_cons_self _ _)
    rw [List.cons_append, makeChangesLoop_cons_of_ok host st u e _ hp.1 hp.2]
    set st1 : BatchApplyState :=
      ⟨if u ∈ st.textModels then st.textModels else st.textModels ++ [u],
        if u ∈ st.editStrategies then st.editStrategies else st.editStrategies ++ [u],
        st.applied ++ [(u, e)]⟩ with hst1
    have hpre1 : ∀ q ∈ t, (q.1 ∈ st1.textModels ∨ q.1 ∈ host.liveModels)
        ∧ (q.1 ∈ host.openEditors ∨ q.1 ∈ host.openableEditors) := by
      intro q hq
      have hqq := hpre q (List.mem_cons_of_mem _ hq)
      refine ⟨?_, hqq.2⟩
      rcases hqq.1 with hq1 | hq1
      · left
        rw [hst1]
        by_cases hc1 : u ∈ st.textModels <;> simp [hc1, hq1]
      · exact Or.inr hq1
    have hfail1 : (uf ∉ st1.textModels ∧ uf ∉ host.liveModels)
        ∨ (uf ∈ host.liveModels ∧ uf ∉ host.openEditors ∧ uf ∉ host.openableEditors) := by
      rcases hfail with ⟨h1, h2⟩ | hr
      · left
        refine ⟨?_, h2⟩
        rw [hst1]
        have hufu : uf ≠ u := by
          intro hequ
          rcases hp.1 with hd | hd
          · exact h1 (hequ ▸ hd)
          · exact h2 (hequ ▸ hd)
        by_cases hc1 : u ∈ st.textModels <;> simp [hc1, h1, hufu]
      · exact Or.inr hr
    have hres := ih st1 hpre1 hfail1
    refine ⟨?_, hres.2⟩
    rw [hres.1, hst1]
    simp

theorem c3_amended_abort_witness :
    (makeChangesLoop ⟨["a", "b"], ["b"], []⟩ ⟨[], [], []⟩
        ([(("b"), ⟨⟨1, 1, 1, 1⟩, some ("y")⟩)]
          ++ (("a"), (⟨⟨1, 1, 1, 1⟩, some ("x")⟩ : SingleEditOperation))
            :: [(("b"), ⟨⟨2, 1, 2, 1⟩, some ("z")⟩)])).1.applied
        = [] ++ [(("b"), ⟨⟨1, 1, 1, 1⟩, some ("y")⟩)]
      ∧ ((makeChangesLoop ⟨["a", "b"], ["b"], []⟩ ⟨[], [], []⟩
          ([(("b"), ⟨⟨1, 1, 1, 1⟩, some ("y")⟩)]
            ++ (("a"), (⟨⟨1, 1, 1, 1⟩, some ("x")⟩ : SingleEditOperation))
              :: [(("b"), ⟨⟨2, 1, 2, 1⟩, some ("z")⟩)])).2
            = BatchOutcome.documentNotFound ("a")
        ∨ (makeChangesLoop ⟨["a", "b"], ["b"], []⟩ ⟨[], [], []⟩
          ([(("b"), ⟨⟨1, 1, 1, 1⟩, some ("y")⟩)]
            ++ (("a"), (⟨⟨1, 1, 1, 1⟩, some ("x")⟩ : SingleEditOperation))
              :: [(("b"), ⟨⟨2, 1, 2, 1⟩, some ("z")⟩)])).2
            = BatchOutcome.editorUnavailable ("a")) :=
  c3_amended_abort ⟨["a", "b"], ["b"], []⟩ ⟨[], [], []⟩
    [(("b"), ⟨⟨1, 1, 1, 1⟩, some ("y")⟩)] ("a") ⟨⟨1, 1, 1, 1⟩, some ("x")⟩
    [(("b"), ⟨⟨2, 1, 2, 1⟩, some ("z")⟩)]
    (by decide) (by decide)

end AideEdit
